import Mathlib

/-!
# Verification of the Focus host-file editor

A shallow embedding of `focus/focus.py`: Python strings are modelled as
`List Char`, the filesystem state (target file plus backup directory) as an
explicit record, and each method of the `Focus` class as a pure function on
that state.  SHA-256 is implemented in full over byte lists so that the
backup naming scheme is modelled faithfully.
-/

namespace FocusVerify

/-- Python strings are sequences of code points. -/
abbrev PyStr := List Char

/-- View a Lean string literal as a Python string. -/
def pstr (s : String) : PyStr := s.data

/-- `startswith s p` models Python `s.startswith(p)`. -/
def startswith : PyStr → PyStr → Bool
  | _, [] => true
  | [], _ :: _ => false
  | c :: cs, p :: ps => (p == c) && startswith cs ps

/-- `endswith s p` models Python `s.endswith(p)`. -/
def endswith (s p : PyStr) : Bool := startswith s.reverse p.reverse

/-- Python `str.strip()` with no arguments: drop whitespace from both ends. -/
def pyStrip (s : PyStr) : PyStr :=
  ((s.dropWhile Char.isWhitespace).reverse.dropWhile Char.isWhitespace).reverse

/-- Split on the newline character, keeping empty pieces
(the behaviour of Python `str.split("\n")`). -/
def splitNl : PyStr → List PyStr
  | [] => [[]]
  | c :: rest =>
    let r := splitNl rest
    if c = '\n' then [] :: r
    else
      match r with
      | [] => [[c]]
      | h :: t => (c :: h) :: t

/-- Python `f.readlines()` on a file holding `s`: the newline-separated
pieces of `s`, except that the piece after a final newline (or the sole
empty piece of an empty file) is not a line. -/
def pyReadLines (s : PyStr) : List PyStr :=
  let ps := splitNl s
  if ps.getLast? = some [] then ps.dropLast else ps

/-- The contents written by `Focus._write`: `"\n".join(contents)`. -/
def pyWrite : List PyStr → PyStr
  | [] => []
  | [x] => x
  | x :: y :: rest => x ++ '\n' :: pyWrite (y :: rest)

/-! ## SHA-256 over byte lists (`hashlib.sha256(...).hexdigest()`) -/

/-- Truncate to a 32-bit word. -/
def w32 (n : Nat) : Nat := n % 4294967296

/-- Right rotation of a 32-bit word. -/
def rotr (k x : Nat) : Nat := w32 ((x >>> k) ||| (x <<< (32 - k)))

def bigSigma0 (x : Nat) : Nat := rotr 2 x ^^^ rotr 13 x ^^^ rotr 22 x

def bigSigma1 (x : Nat) : Nat := rotr 6 x ^^^ rotr 11 x ^^^ rotr 25 x

def smallSigma0 (x : Nat) : Nat := rotr 7 x ^^^ rotr 18 x ^^^ (x >>> 3)

def smallSigma1 (x : Nat) : Nat := rotr 17 x ^^^ rotr 19 x ^^^ (x >>> 10)

def chFn (x y z : Nat) : Nat := (x &&& y) ^^^ ((x ^^^ 4294967295) &&& z)

def majFn (x y z : Nat) : Nat := (x &&& y) ^^^ (x &&& z) ^^^ (y &&& z)

/-- The 64 SHA-256 round constants (FIPS 180-4, in decimal). -/
def K256 : List Nat :=
  [1116352408, 1899447441, 3049323471, 3921009573, 961987163,
   1508970993, 2453635748, 2870763221, 3624381080, 310598401,
   607225278, 1426881987, 1925078388, 2162078206, 2614888103,
   3248222580, 3835390401, 4022224774, 264347078, 604807628,
   770255983, 1249150122, 1555081692, 1996064986, 2554220882,
   2821834349, 2952996808, 3210313671, 3336571891, 3584528711,
   113926993, 338241895, 666307205, 773529912, 1294757372,
   1396182291, 1695183700, 1986661051, 2177026350, 2456956037,
   2730485921, 2820302411, 3259730800, 3345764771, 3516065817,
   3600352804, 4094571909, 275423344, 430227734, 506948616,
   659060556, 883997877, 958139571, 1322822218, 1537002063,
   1747873779, 1955562222, 2024104815, 2227730452, 2361852424,
   2428436474, 2756734187, 3204031479, 3329325298]

/-- SHA-256 working state: eight 32-bit words. -/
structure Hash8 where
  a : Nat
  b : Nat
  c : Nat
  d : Nat
  e : Nat
  f : Nat
  g : Nat
  hh : Nat
  deriving Repr, DecidableEq

/-- The SHA-256 initial hash value (FIPS 180-4, in decimal). -/
def initHash : Hash8 :=
  ⟨1779033703, 3144134277, 1013904242, 2773480762,
   1359893119, 2600822924, 528734635, 1541459225⟩

/-- Pad a byte message: append `0x80`, zeros to 56 mod 64, then the
bit length as eight big-endian bytes. -/
def padMessage (ms : List Nat) : List Nat :=
  let L := ms.length
  let z := (119 - L % 64) % 64
  let lenBits := L * 8
  ms ++ [128] ++ List.replicate z 0 ++
    (List.range 8).map (fun i => (lenBits >>> (8 * (7 - i))) % 256)

/-- Big-endian 32-bit words from bytes. -/
def toWords : List Nat → List Nat
  | b0 :: b1 :: b2 :: b3 :: rest =>
    (b0 * 16777216 + b1 * 65536 + b2 * 256 + b3) :: toWords rest
  | _ => []

/-- One message-schedule extension step. -/
def scheduleStep (ws : List Nat) : List Nat :=
  let n := ws.length
  ws ++ [w32 (ws.getD (n - 16) 0 + smallSigma0 (ws.getD (n - 15) 0) +
              ws.getD (n - 7) 0 + smallSigma1 (ws.getD (n - 2) 0))]

/-- Iterate the schedule extension. -/
def extendW : Nat → List Nat → List Nat
  | 0, ws => ws
  | k + 1, ws => extendW k (scheduleStep ws)

/-- One SHA-256 compression round. -/
def roundStep (st : Hash8) (kw w : Nat) : Hash8 :=
  let t1 := w32 (st.hh + bigSigma1 st.e + chFn st.e st.f st.g + kw + w)
  let t2 := w32 (bigSigma0 st.a + majFn st.a st.b st.c)
  ⟨w32 (t1 + t2), st.a, st.b, st.c, w32 (st.d + t1), st.e, st.f, st.g⟩

/-- Compress one 64-byte block into the running hash. -/
def compressBlock (st : Hash8) (block : List Nat) : Hash8 :=
  let ws := extendW 48 (toWords block)
  let st2 := (K256.zip ws).foldl (fun s p => roundStep s p.1 p.2) st
  ⟨w32 (st.a + st2.a), w32 (st.b + st2.b), w32 (st.c + st2.c),
   w32 (st.d + st2.d), w32 (st.e + st2.e), w32 (st.f + st2.f),
   w32 (st.g + st2.g), w32 (st.hh + st2.hh)⟩

/-- Split a byte list into 64-byte chunks. -/
def chunks64 : List Nat → List (List Nat)
  | [] => []
  | b :: rest => ((b :: rest).take 64) :: chunks64 ((b :: rest).drop 64)
termination_by l => l.length
decreasing_by
  simp [List.length_drop]
  omega

/-- The SHA-256 digest of a byte message, as eight 32-bit words. -/
def sha256Words (ms : List Nat) : Hash8 :=
  (chunks64 (padMessage ms)).foldl compressBlock initHash

/-- Lower-case hex digit. -/
def hexChar (n : Nat) : Char :=
  if n < 10 then Char.ofNat (48 + n) else Char.ofNat (87 + n)

/-- `k` hex digits of `n`, most significant first. -/
def toHexDigits : Nat → Nat → List Char
  | 0, _ => []
  | k + 1, n => toHexDigits k (n / 16) ++ [hexChar (n % 16)]

/-- `hashlib.sha256(ms).hexdigest()` as a Python string. -/
def sha256hex (ms : List Nat) : PyStr :=
  let st := sha256Words ms
  toHexDigits 8 st.a ++ toHexDigits 8 st.b ++ toHexDigits 8 st.c ++
  toHexDigits 8 st.d ++ toHexDigits 8 st.e ++ toHexDigits 8 st.f ++
  toHexDigits 8 st.g ++ toHexDigits 8 st.hh

/-- UTF-8 bytes of one code point. -/
def utf8Char (c : Char) : List Nat :=
  let n := c.toNat
  if n < 128 then [n]
  else if n < 2048 then [192 + n / 64, 128 + n % 64]
  else if n < 65536 then
    [224 + n / 4096, 128 + (n / 64) % 64, 128 + n % 64]
  else
    [240 + n / 262144, 128 + (n / 4096) % 64, 128 + (n / 64) % 64,
     128 + n % 64]

/-- `bytes(s, encoding="utf-8")`. -/
def utf8Encode (s : PyStr) : List Nat := (s.map utf8Char).flatten

/-! ## The `Focus` class -/

/-- `Focus.FOCUS_BOS`. -/
def FOCUS_BOS : PyStr := pstr "# Added by Focus"

/-- `Focus.FOCUS_EOS`. -/
def FOCUS_EOS : PyStr := pstr "# End of Focus section"

/-- `Focus.DEFAULT_DST_IP`. -/
def DEFAULT_DST_IP : PyStr := pstr "127.0.0.1"

/-- The errors the program raises:
`FileNotFoundError`, the two `RuntimeError`s of `forbid_domains` and
`restore`, and `argparse.ArgumentTypeError` from `parse_time`. -/
inductive Err where
  | fileNotFound
  | emptyContent
  | ambiguousBackup
  | invalidSyntax
  deriving Repr, DecidableEq

/-- The filesystem as the program sees it: the target file's contents
(`none` when the file is absent) and the backup directory as a list of
(file name, file contents) pairs. -/
structure FS where
  target : Option PyStr
  backups : List (PyStr × PyStr)
  deriving Repr, DecidableEq

/-- The mutable attributes of a `Focus` instance that the modelled
operations consult: `hosts_contents` and `_current_hash`. -/
structure FocusState where
  hosts_contents : List PyStr
  current_hash : PyStr
  deriving Repr, DecidableEq

/-- The loop body of `Focus._read`: append each line stripped. -/
def readLoop (acc : List PyStr) : List PyStr → List PyStr
  | [] => acc
  | l :: rest => readLoop (acc ++ [pyStrip l]) rest

/-- `Focus._read`: raise `FileNotFoundError` when the file is absent,
otherwise return its lines, each stripped, in order. -/
def focusRead (t : Option PyStr) : Except Err (List PyStr) :=
  match t with
  | none => .error .fileNotFound
  | some s => .ok (readLoop [] (pyReadLines s))

/-- `os.path.exists` on the backup directory: is a file of this name
present? -/
def hasName (backups : List (PyStr × PyStr)) (name : PyStr) : Bool :=
  backups.any (fun b => b.1 == name)

/-- The backup hash: hex SHA-256 of `"".join(hosts_contents)` encoded
as UTF-8. -/
def hashOf (contents : List PyStr) : PyStr :=
  sha256hex (utf8Encode contents.flatten)

/-- `Focus._backup`: compute the content hash, and write the joined
contents under that name in the backup directory unless a file of that
name already exists.  Returns the updated directory and the hash the
instance records. -/
def backupStep (backups : List (PyStr × PyStr)) (contents : List PyStr) :
    List (PyStr × PyStr) × PyStr :=
  let h := hashOf contents
  if hasName backups h then (backups, h)
  else (backups ++ [(h, pyWrite contents)], h)

/-- `Focus.__init__`: read the target file (raising if absent), then
snapshot it. -/
def focusInit (fs : FS) : Except Err (FocusState × FS) :=
  match focusRead fs.target with
  | .error e => .error e
  | .ok contents =>
    let bk := backupStep fs.backups contents
    .ok (⟨contents, bk.2⟩, ⟨fs.target, bk.1⟩)

/-- The managed-section filter of `forbid_domains`: walk the lines with
an `is_focus_section` flag, dropping marker lines and lines inside a
section.  Marker recognition uses `str.startswith`. -/
def filterFocus : Bool → List PyStr → List PyStr
  | _, [] => []
  | flag, l :: rest =>
    if startswith l FOCUS_BOS then filterFocus true rest
    else if flag && startswith l FOCUS_EOS then filterFocus false rest
    else if flag then filterFocus true rest
    else l :: filterFocus false rest

/-- The lines kept by `forbid_domains` before the fresh section is
appended. -/
def removeFocusSection (contents : List PyStr) : List PyStr :=
  filterFocus false contents

/-- One mapping line `f"{DEFAULT_DST_IP} {d}"`. -/
def mapLine (d : PyStr) : PyStr := DEFAULT_DST_IP ++ ' ' :: d

/-- `Focus.forbid_domains`: raise on empty loaded contents, otherwise
write back the filtered lines followed by the fresh managed section. -/
def forbidDomains (st : FocusState) (fs : FS) (domains : List PyStr) :
    Except Err FS :=
  if st.hosts_contents.isEmpty then .error .emptyContent
  else
    .ok { fs with target := some (pyWrite
      (removeFocusSection st.hosts_contents ++
        FOCUS_BOS :: domains.map mapLine ++ [FOCUS_EOS])) }

/-- `Focus.restore`: default the hash to the recorded one, list the
backup files whose name starts with it, raise unless exactly one
matches, then read it and overwrite the target file. -/
def focusRestore (st : FocusState) (fs : FS) (hs : Option PyStr) :
    Except Err FS :=
  let h := hs.getD st.current_hash
  match fs.backups.filter (fun b => startswith b.1 h) with
  | [tgt] =>
    .ok { fs with target := some (pyWrite ((pyReadLines tgt.2).map pyStrip)) }
  | _ => .error .ambiguousBackup

/-- Run `forbid_domains` with exception semantics: an error aborts the
call before any write, leaving the filesystem unchanged. -/
def forbidRun (st : FocusState) (fs : FS) (domains : List PyStr) :
    FS × Option Err :=
  match forbidDomains st fs domains with
  | .ok fs2 => (fs2, none)
  | .error e => (fs, some e)

/-- Run `restore` with exception semantics: an error aborts the call
before any write, leaving the filesystem unchanged. -/
def restoreRun (st : FocusState) (fs : FS) (hs : Option PyStr) :
    FS × Option Err :=
  match focusRestore st fs hs with
  | .ok fs2 => (fs2, none)
  | .error e => (fs, some e)

/-! ## `parse_time` -/

/-- Numeric value of a decimal digit string (Python `int`). -/
def natOfDigits (ds : List Char) : Nat :=
  ds.foldl (fun a c => 10 * a + (c.toNat - 48)) 0

/-- Python `str.isdigit` restricted to ASCII: nonempty and all decimal
digits. -/
def pyIsdigit (s : PyStr) : Bool := !s.isEmpty && s.all Char.isDigit

def SEC_IN_A_DAY : Nat := 86400

def SEC_IN_A_HOUR : Nat := 3600

def SEC_IN_A_MIN : Nat := 60

/-- `parse_time`: check that everything before the last character is a
digit string, then dispatch on the final suffix. -/
def parse_time (s : PyStr) : Except Err Nat :=
  if !pyIsdigit s.dropLast then .error .invalidSyntax
  else if endswith s (pstr "d") then
    .ok (natOfDigits s.dropLast * SEC_IN_A_DAY)
  else if endswith s (pstr "h") then
    .ok (natOfDigits s.dropLast * SEC_IN_A_HOUR)
  else if endswith s (pstr "m") then
    .ok (natOfDigits s.dropLast * SEC_IN_A_MIN)
  else if endswith s (pstr "s") then
    .ok (natOfDigits s.dropLast)
  else .error .invalidSyntax

/-- Seconds per unit suffix, following the spec's table. -/
def unitSeconds (c : Char) : Option Nat :=
  if c = 'd' then some SEC_IN_A_DAY
  else if c = 'h' then some SEC_IN_A_HOUR
  else if c = 'm' then some SEC_IN_A_MIN
  else if c = 's' then some 1
  else none

/-- The duration syntax as the spec words it: a nonempty digit string
immediately followed by one unit suffix `d|h|m|s`; anything else is a
parse error. -/
def parseTimeSpec (s : PyStr) : Except Err Nat :=
  match s.getLast? with
  | none => .error .invalidSyntax
  | some c =>
    match unitSeconds c with
    | none => .error .invalidSyntax
    | some u =>
      if s.dropLast ≠ [] ∧ s.dropLast.all Char.isDigit then
        .ok (natOfDigits s.dropLast * u)
      else .error .invalidSyntax

instance {ε α : Type} [DecidableEq ε] [DecidableEq α] :
    DecidableEq (Except ε α) := fun a b =>
  match a, b with
  | .ok x, .ok y =>
    if h : x = y then .isTrue (by rw [h]) else .isFalse (by simp [h])
  | .error x, .error y =>
    if h : x = y then .isTrue (by rw [h]) else .isFalse (by simp [h])
  | .ok _, .error _ => .isFalse (by simp)
  | .error _, .ok _ => .isFalse (by simp)

/-! ## Basic lemmas about the embedded operations -/

theorem startswith_self (s : PyStr) : startswith s s = true := by
  induction s with
  | nil => rfl
  | cons c cs ih => simp [startswith, ih]

theorem startswith_false_of_head_ne (c p : Char) (cs ps : PyStr)
    (hne : (p == c) = false) : startswith (c :: cs) (p :: ps) = false := by
  simp [startswith, hne]

theorem readLoop_eq (acc ls : List PyStr) :
    readLoop acc ls = acc ++ ls.map pyStrip := by
  induction ls generalizing acc with
  | nil => simp [readLoop]
  | cons l rest ih => simp [readLoop, ih]

theorem focusRead_some (s : PyStr) :
    focusRead (some s) = .ok ((pyReadLines s).map pyStrip) := by
  simp [focusRead, readLoop_eq]

theorem focusInit_some (s : PyStr) (bks : List (PyStr × PyStr)) :
    focusInit ⟨some s, bks⟩ =
      .ok (⟨(pyReadLines s).map pyStrip,
            (backupStep bks ((pyReadLines s).map pyStrip)).2⟩,
           ⟨some s, (backupStep bks ((pyReadLines s).map pyStrip)).1⟩) := by
  simp [focusInit, focusRead, readLoop_eq]

theorem backupStep_fresh (L : List PyStr) :
    backupStep [] L = ([(hashOf L, pyWrite L)], hashOf L) := by
  simp [backupStep, hasName]

theorem backupStep_mem (bks : List (PyStr × PyStr)) (L : List PyStr)
    (hmem : hasName bks (hashOf L) = true) :
    backupStep bks L = (bks, hashOf L) := by
  simp [backupStep, hmem]

theorem focusRestore_single (st : FocusState) (fs : FS) (c : PyStr)
    (hb : fs.backups = [(st.current_hash, c)]) :
    focusRestore st fs none =
      .ok { fs with target := some (pyWrite ((pyReadLines c).map pyStrip)) } := by
  simp [focusRestore, hb, List.filter, startswith_self]

theorem filterFocus_append_noBos (xs ys : List PyStr)
    (hxs : ∀ l ∈ xs, startswith l FOCUS_BOS = false) :
    filterFocus false (xs ++ ys) = xs ++ filterFocus false ys := by
  induction xs with
  | nil => simp
  | cons x rest ih =>
    have hx : startswith x FOCUS_BOS = false := hxs x (by simp)
    simp only [List.cons_append, filterFocus, hx, Bool.false_and,
      Bool.false_eq_true, if_false, List.append_eq]
    rw [ih (fun l hl => hxs l (by simp [hl]))]

theorem filterFocus_true_skip (xs ys : List PyStr)
    (hxs : ∀ l ∈ xs,
      startswith l FOCUS_BOS = false ∧ startswith l FOCUS_EOS = false) :
    filterFocus true (xs ++ ys) = filterFocus true ys := by
  induction xs with
  | nil => simp
  | cons x rest ih =>
    have hx := hxs x (by simp)
    simp only [List.cons_append, filterFocus, hx.1, hx.2]
    simp only [Bool.false_eq_true, if_false, Bool.and_false, if_true]
    exact ih (fun l hl => hxs l (by simp [hl]))

theorem filterFocus_noBos (xs : List PyStr) :
    ∀ flag, ∀ l ∈ filterFocus flag xs, startswith l FOCUS_BOS = false := by
  induction xs with
  | nil => intro flag l hl; simp [filterFocus] at hl
  | cons x rest ih =>
    intro flag l hl
    by_cases hbos : startswith x FOCUS_BOS = true
    · simp only [filterFocus, hbos, if_true] at hl
      exact ih true l hl
    · have hbos' : startswith x FOCUS_BOS = false := by
        revert hbos; cases startswith x FOCUS_BOS <;> simp
      cases flag with
      | true =>
        simp only [filterFocus, hbos', Bool.true_and] at hl
        by_cases heos : startswith x FOCUS_EOS = true
        · simp only [heos, if_true] at hl
          simp only [Bool.false_eq_true, if_false] at hl
          exact ih false l hl
        · have heos' : startswith x FOCUS_EOS = false := by
            revert heos; cases startswith x FOCUS_EOS <;> simp
          simp only [heos', Bool.false_eq_true, if_false, if_true] at hl
          exact ih true l hl
      | false =>
        simp only [filterFocus, hbos', Bool.false_and, Bool.false_eq_true,
          if_false] at hl
        rcases List.mem_cons.mp hl with h | h
        · exact h ▸ hbos'
        · exact ih false l h

theorem startswith_mapLine_bos (d : PyStr) :
    startswith (mapLine d) FOCUS_BOS = false := by
  show startswith ('1' :: (pstr "27.0.0.1" ++ ' ' :: d))
    ('#' :: pstr " Added by Focus") = false
  exact startswith_false_of_head_ne _ _ _ _ (by decide)

theorem startswith_mapLine_eos (d : PyStr) :
    startswith (mapLine d) FOCUS_EOS = false := by
  show startswith ('1' :: (pstr "27.0.0.1" ++ ' ' :: d))
    ('#' :: pstr " End of Focus section") = false
  exact startswith_false_of_head_ne _ _ _ _ (by decide)

theorem filterFocus_section (D : List PyStr) :
    filterFocus false (FOCUS_BOS :: D.map mapLine ++ [FOCUS_EOS]) = [] := by
  have h1 : filterFocus false (FOCUS_BOS :: D.map mapLine ++ [FOCUS_EOS]) =
      filterFocus true (D.map mapLine ++ [FOCUS_EOS]) := by
    simp [filterFocus, startswith_self]
  rw [h1, filterFocus_true_skip (D.map mapLine) [FOCUS_EOS]
    (by
      intro l hl
      rcases List.mem_map.mp hl with ⟨d, _, rfl⟩
      exact ⟨startswith_mapLine_bos d, startswith_mapLine_eos d⟩)]
  simp [filterFocus, startswith_self, show startswith FOCUS_EOS FOCUS_BOS = false by decide]

theorem removeFocusSection_output (L D : List PyStr) :
    removeFocusSection
      (removeFocusSection L ++ FOCUS_BOS :: D.map mapLine ++ [FOCUS_EOS]) =
    removeFocusSection L := by
  unfold removeFocusSection
  rw [show filterFocus false L ++ FOCUS_BOS :: D.map mapLine ++ [FOCUS_EOS] =
        filterFocus false L ++ (FOCUS_BOS :: D.map mapLine ++ [FOCUS_EOS]) by
      simp,
    filterFocus_append_noBos _ _ (filterFocus_noBos L false),
    filterFocus_section, List.append_nil]

theorem splitNl_no_nl (x : PyStr) (hx : '\n' ∉ x) : splitNl x = [x] := by
  induction x with
  | nil => rfl
  | cons c cs ih =>
    have hc : ¬ c = '\n' := fun h => hx (h ▸ List.mem_cons_self c cs)
    have hcs : '\n' ∉ cs := fun h => hx (List.mem_cons_of_mem c h)
    simp only [splitNl, if_neg hc, ih hcs]

theorem splitNl_append (x t : PyStr) (hx : '\n' ∉ x) :
    splitNl (x ++ '\n' :: t) = x :: splitNl t := by
  induction x with
  | nil => simp [splitNl]
  | cons c cs ih =>
    have hc : ¬ c = '\n' := fun h => hx (h ▸ List.mem_cons_self c cs)
    have hcs : '\n' ∉ cs := fun h => hx (List.mem_cons_of_mem c h)
    simp only [List.cons_append, splitNl, if_neg hc, List.append_eq, ih hcs]

theorem splitNl_pyWrite (L : List PyStr) (hL : L ≠ [])
    (h : ∀ l ∈ L, '\n' ∉ l) : splitNl (pyWrite L) = L := by
  induction L with
  | nil => exact absurd rfl hL
  | cons x rest ih =>
    cases rest with
    | nil => exact splitNl_no_nl x (h x (by simp))
    | cons y t =>
      have hx : '\n' ∉ x := h x (by simp)
      show splitNl (x ++ '\n' :: pyWrite (y :: t)) = x :: y :: t
      rw [splitNl_append x _ hx,
        ih (by simp) (fun l hl => h l (List.mem_cons_of_mem x hl))]

theorem pyReadLines_pyWrite (L : List PyStr) (hnl : ∀ l ∈ L, '\n' ∉ l)
    (hlast : L.getLast? ≠ some []) : pyReadLines (pyWrite L) = L := by
  cases hL : L with
  | nil => rfl
  | cons x rest =>
    rw [pyReadLines, splitNl_pyWrite (x :: rest) (by simp) (hL ▸ hnl)]
    rw [if_neg (hL ▸ hlast)]

theorem map_pyStrip_fixed (L : List PyStr) (h : ∀ l ∈ L, pyStrip l = l) :
    L.map pyStrip = L := by
  induction L with
  | nil => rfl
  | cons x rest ih =>
    simp only [List.map_cons, h x (by simp),
      ih (fun l hl => h l (List.mem_cons_of_mem x hl))]

/-! ## The claims -/

/-- C1: for a nonempty loaded line list and any domain list `D`,
`forbid_domains(D)` writes to the target file exactly the loaded lines
with the managed section removed, in order, followed by the begin
marker, one `127.0.0.1 d` mapping line per domain in the order of `D`,
and the end marker. -/
theorem claim_forbid_section_layout (st : FocusState) (fs : FS)
    (D : List PyStr) (hne : st.hosts_contents ≠ []) :
    forbidDomains st fs D = .ok { fs with target := some (pyWrite
      (removeFocusSection st.hosts_contents ++
        FOCUS_BOS :: D.map mapLine ++ [FOCUS_EOS])) } := by
  have hE : st.hosts_contents.isEmpty = false := by
    cases h : st.hosts_contents with
    | nil => exact absurd h hne
    | cons a l => rfl
  simp [forbidDomains, hE]

theorem claim_forbid_section_layout_witness :
    forbidDomains ⟨[pstr "x"], []⟩ ⟨none, []⟩ [pstr "a.com"] =
      .ok ⟨some (pstr "x\n# Added by Focus\n127.0.0.1 a.com\n# End of Focus section"), []⟩ :=
  (claim_forbid_section_layout ⟨[pstr "x"], []⟩ ⟨none, []⟩ [pstr "a.com"]
    (by decide)).trans (by decide)

/-- C3: the backup filename is the hex SHA-256 of the concatenated line
contents, so snapshotting the same content twice yields the same name;
a second snapshot never rewrites: it leaves the backup directory
unchanged, and more generally an existing file for the hash
short-circuits the write. -/
theorem claim_backup_written_once (bks : List (PyStr × PyStr))
    (L : List PyStr) :
    (backupStep bks L).2 = hashOf L ∧
    hashOf L = sha256hex (utf8Encode L.flatten) ∧
    backupStep (backupStep bks L).1 L = ((backupStep bks L).1, hashOf L) ∧
    (hasName bks (hashOf L) = true → (backupStep bks L).1 = bks) := by
  refine ⟨?_, rfl, ?_, ?_⟩
  · by_cases h : hasName bks (hashOf L) = true <;> simp [backupStep, h]
  · by_cases h : hasName bks (hashOf L) = true
    · simp [backupStep, h]
    · have h' : hasName bks (hashOf L) = false := by
        revert h; cases hasName bks (hashOf L) <;> simp
      have h2 : hasName (bks ++ [(hashOf L, pyWrite L)]) (hashOf L) = true := by
        simp [hasName]
      simp [backupStep, h', h2]
  · intro h; simp [backupStep, h]

theorem claim_backup_written_once_witness :
    (backupStep [(hashOf [pstr "x"], pstr "y")] [pstr "x"]).1 =
      [(hashOf [pstr "x"], pstr "y")] :=
  (claim_backup_written_once [(hashOf [pstr "x"], pstr "y")] [pstr "x"]).2.2.2
    (by simp [hasName])

/-- C4, counterexample: a line that merely starts with the begin-marker
string but carries trailing text is treated as a marker by
`forbid_domains` (which uses `str.startswith`), not kept as ordinary
content as the claim states: it opens a section that swallows the
following line. -/
theorem claim_exact_marker_cex :
    removeFocusSection
        [pstr "a", pstr "# Added by Focus EXTRA", pstr "b"] = [pstr "a"] ∧
    removeFocusSection
        [pstr "a", pstr "# Added by Focus EXTRA", pstr "b"] ≠
      [pstr "a", pstr "# Added by Focus EXTRA", pstr "b"] := by
  constructor
  · decide
  · decide

/-- C4, amended: the managed section is delimited by prefix matching: a
line counts as a begin marker whenever it starts with
`# Added by Focus` (trailing text included), and, inside a section, as
an end marker whenever it starts with `# End of Focus section`; such a
delimited section is removed together with its marker lines, while
lines before the section (none of which start with the begin marker)
are kept. -/
theorem claim_prefix_marker_amended (pre mid post : List PyStr)
    (bosL eosL : PyStr)
    (hpre : ∀ l ∈ pre, startswith l FOCUS_BOS = false)
    (hbos : startswith bosL FOCUS_BOS = true)
    (hmid : ∀ l ∈ mid,
      startswith l FOCUS_BOS = false ∧ startswith l FOCUS_EOS = false)
    (heos1 : startswith eosL FOCUS_BOS = false)
    (heos2 : startswith eosL FOCUS_EOS = true) :
    removeFocusSection (pre ++ bosL :: mid ++ eosL :: post) =
      pre ++ removeFocusSection post := by
  unfold removeFocusSection
  rw [show pre ++ bosL :: mid ++ eosL :: post =
        pre ++ (bosL :: (mid ++ eosL :: post)) by simp,
    filterFocus_append_noBos pre _ hpre]
  congr 1
  show filterFocus false (bosL :: (mid ++ eosL :: post)) = filterFocus false post
  rw [show filterFocus false (bosL :: (mid ++ eosL :: post)) =
        filterFocus true (mid ++ eosL :: post) by simp [filterFocus, hbos],
    filterFocus_true_skip mid _ hmid]
  simp [filterFocus, heos1, heos2]

theorem claim_prefix_marker_amended_witness :
    removeFocusSection
        [pstr "x", pstr "# Added by Focus EXTRA", pstr "y",
         pstr "# End of Focus sectionZZ", pstr "z"] =
      [pstr "x", pstr "z"] :=
  (claim_prefix_marker_amended [pstr "x"] [pstr "y"] [pstr "z"]
    (pstr "# Added by Focus EXTRA") (pstr "# End of Focus sectionZZ")
    (by decide) (by decide) (by decide) (by decide) (by decide)).trans
    (by decide)

/-- C5: applying a block twice is idempotent: filtering the managed
section out of (filtered content plus fresh section) returns the
filtered content unchanged, so the second application's output — and in
particular its non-managed prefix — equals the first's. -/
theorem claim_forbid_idempotent (L D : List PyStr) :
    removeFocusSection
        (removeFocusSection L ++ FOCUS_BOS :: D.map mapLine ++ [FOCUS_EOS]) =
      removeFocusSection L ∧
    removeFocusSection
        (removeFocusSection L ++ FOCUS_BOS :: D.map mapLine ++ [FOCUS_EOS]) ++
        FOCUS_BOS :: D.map mapLine ++ [FOCUS_EOS] =
      removeFocusSection L ++ FOCUS_BOS :: D.map mapLine ++ [FOCUS_EOS] := by
  refine ⟨removeFocusSection_output L D, ?_⟩
  rw [removeFocusSection_output L D]

/-- C8: loading a file yields exactly the whitespace-stripped versions
of its lines in file order, and raises `FileNotFoundError` exactly when
the file is absent. -/
theorem claim_read_stripped_lines (t : Option PyStr) :
    focusRead t = match t with
      | none => .error .fileNotFound
      | some s => .ok ((pyReadLines s).map pyStrip) := by
  cases t with
  | none => rfl
  | some s => exact focusRead_some s

/-- C9: `forbid_domains` raises the empty-content error exactly when the
loaded line list is empty, in which case the target file is not
written; a list holding only an empty-string line is nonempty and does
not raise. -/
theorem claim_forbid_empty_iff (st : FocusState) (fs : FS)
    (D : List PyStr) :
    ((forbidRun st fs D).2.isSome = true ↔ st.hosts_contents = []) ∧
    (st.hosts_contents = [] → (forbidRun st fs D).1 = fs) ∧
    (st.hosts_contents = [[]] → (forbidRun st fs D).2 = none) := by
  refine ⟨?_, ?_, ?_⟩
  · cases h : st.hosts_contents with
    | nil => simp [forbidRun, forbidDomains, h]
    | cons a l => simp [forbidRun, forbidDomains, h]
  · intro h; simp [forbidRun, forbidDomains, h]
  · intro h; simp [forbidRun, forbidDomains, h]

theorem claim_forbid_empty_iff_witness :
    (forbidRun ⟨[], []⟩ ⟨some [], []⟩ []).1 = ⟨some [], []⟩ ∧
    (forbidRun ⟨[[]], []⟩ ⟨some [], []⟩ []).2 = none :=
  ⟨(claim_forbid_empty_iff ⟨[], []⟩ ⟨some [], []⟩ []).2.1 rfl,
   (claim_forbid_empty_iff ⟨[[]], []⟩ ⟨some [], []⟩ []).2.2 rfl⟩

/-- C7: `restore(h)` raises exactly when the number of backup files
whose name starts with `h` differs from one, and a failing call leaves
the target file unchanged: the error is raised before any write. -/
theorem claim_restore_error_iff (st : FocusState) (fs : FS) (h : PyStr) :
    ((restoreRun st fs (some h)).2.isSome = true ↔
      (fs.backups.filter (fun b => startswith b.1 h)).length ≠ 1) ∧
    ((restoreRun st fs (some h)).2.isSome = true →
      (restoreRun st fs (some h)).1 = fs) := by
  rcases hfil : fs.backups.filter (fun b => startswith b.1 h) with
    _ | ⟨x, _ | ⟨y, t⟩⟩ <;>
    constructor <;>
    simp [restoreRun, focusRestore, hfil]

theorem claim_restore_error_iff_witness :
    (restoreRun ⟨[], []⟩ ⟨none, []⟩ (some [])).2.isSome = true ∧
    (restoreRun ⟨[], []⟩ ⟨none, []⟩ (some [])).1 = ⟨none, []⟩ := by
  have hth := claim_restore_error_iff ⟨[], []⟩ ⟨none, []⟩ []
  have h1 : (restoreRun ⟨[], []⟩ ⟨none, []⟩ (some [])).2.isSome = true :=
    hth.1.mpr (by decide)
  exact ⟨h1, hth.2 h1⟩

theorem pyIsdigit_iff (s : PyStr) :
    pyIsdigit s = true ↔ (s ≠ [] ∧ s.all Char.isDigit = true) := by
  simp [pyIsdigit, List.isEmpty_eq_true]

theorem endswith_concat (xs : List Char) (c d : Char) :
    endswith (xs ++ [c]) [d] = (d == c) := by
  simp [endswith, startswith, List.reverse_append]

/-- C6: `parse_time` agrees everywhere with the spec's duration syntax:
a nonempty digit string followed by one suffix `d|h|m|s` maps to the
corresponding number of seconds, and every other input (other final
suffixes, non-integer prefixes) is a parse error; in particular the
spec's six examples hold. -/
theorem claim_parse_time_values :
    (∀ s : PyStr, parse_time s = parseTimeSpec s) ∧
    parse_time (pstr "2d") = .ok 172800 ∧
    parse_time (pstr "3h") = .ok 10800 ∧
    parse_time (pstr "4m") = .ok 240 ∧
    parse_time (pstr "5s") = .ok 5 ∧
    parse_time (pstr "6dm") = .error .invalidSyntax ∧
    parse_time (pstr "7.8s") = .error .invalidSyntax := by
  refine ⟨?_, by decide, by decide, by decide, by decide, by decide, by decide⟩
  intro s
  induction s using List.reverseRecOn with
  | nil => decide
  | append_singleton xs c _ih =>
    by_cases hdig : pyIsdigit xs = true
    · obtain ⟨hne, hall⟩ := (pyIsdigit_iff xs).mp hdig
      simp only [parse_time, parseTimeSpec, List.dropLast_concat,
        List.getLast?_concat, hdig, Bool.not_true, Bool.false_eq_true,
        if_false, show pstr "d" = ['d'] from rfl,
        show pstr "h" = ['h'] from rfl, show pstr "m" = ['m'] from rfl,
        show pstr "s" = ['s'] from rfl, endswith_concat]
      by_cases h1 : c = 'd'
      · subst h1; simp [unitSeconds, SEC_IN_A_DAY, hne, hall]
      · by_cases h2 : c = 'h'
        · subst h2; simp [unitSeconds, SEC_IN_A_HOUR, hne, hall]
        · by_cases h3 : c = 'm'
          · subst h3; simp [unitSeconds, SEC_IN_A_MIN, hne, hall]
          · by_cases h4 : c = 's'
            · subst h4; simp [unitSeconds, hne, hall]
            · have n1 : ¬('d' = c) := fun h => h1 h.symm
              have n2 : ¬('h' = c) := fun h => h2 h.symm
              have n3 : ¬('m' = c) := fun h => h3 h.symm
              have n4 : ¬('s' = c) := fun h => h4 h.symm
              simp [unitSeconds, h1, h2, h3, h4, n1, n2, n3, n4]
    · have h' : pyIsdigit xs = false := by
        revert hdig; cases pyIsdigit xs <;> simp
      have hL : parse_time (xs ++ [c]) = .error .invalidSyntax := by
        simp [parse_time, List.dropLast_concat, h']
      have hR : parseTimeSpec (xs ++ [c]) = .error .invalidSyntax := by
        simp only [parseTimeSpec, List.getLast?_concat, List.dropLast_concat]
        rcases hu : unitSeconds c with _ | u
        · rfl
        · have hno : ¬(xs ≠ [] ∧ xs.all Char.isDigit = true) := by
            rintro ⟨hne, hall⟩
            have ht : pyIsdigit xs = true := (pyIsdigit_iff xs).mpr ⟨hne, hall⟩
            rw [h'] at ht
            exact Bool.false_ne_true ht
          show (if xs ≠ [] ∧ xs.all Char.isDigit = true then
              Except.ok (natOfDigits xs * u) else
              Except.error Err.invalidSyntax) = Except.error Err.invalidSyntax
          rw [if_neg hno]
      rw [hL, hR]

/-- C2, counterexample: restoring does not always reproduce the
backed-up lines.  A host file reading as `["a", ""]` is backed up as
`"a\n"` (a join of the lines), but reading that backup yields only
`["a"]` — the trailing empty line is lost, so the restored target's
loaded lines differ from the backed-up lines. -/
theorem claim_restore_roundtrip_cex :
    ∃ st fs1 fs2, focusInit ⟨some (pstr "a\n\n"), []⟩ = .ok (st, fs1) ∧
      st.hosts_contents = [pstr "a", []] ∧
      focusRestore st fs1 none = .ok fs2 ∧
      fs2.target = some (pstr "a") ∧
      (pyReadLines (pstr "a")).map pyStrip ≠ st.hosts_contents := by
  refine ⟨⟨[pstr "a", []], hashOf [pstr "a", []]⟩,
    ⟨some (pstr "a\n\n"), [(hashOf [pstr "a", []], pyWrite [pstr "a", []])]⟩,
    ⟨some (pyWrite ((pyReadLines (pyWrite [pstr "a", []])).map pyStrip)),
     [(hashOf [pstr "a", []], pyWrite [pstr "a", []])]⟩,
    ?_, rfl, ?_, ?_, by decide⟩
  · rw [focusInit_some,
      show (pyReadLines (pstr "a\n\n")).map pyStrip = [pstr "a", []] from
        by decide,
      backupStep_fresh]
  · exact focusRestore_single _ _ _ rfl
  · show some (pyWrite ((pyReadLines (pyWrite [pstr "a", []])).map pyStrip)) =
      some (pstr "a")
    decide

/-- C2, amended: the end-to-end scenario holds — starting from loaded
lines `["a","b"]`, blocking `["x.com"]` and restoring with the recorded
hash leaves the target's loaded lines exactly `["a","b"]` — and in
general restoring a backup hash reproduces exactly the backed-up lines
provided the backed-up line list does not end with an empty line (a
single trailing empty line is dropped by the write/read round trip). -/
theorem claim_restore_roundtrip_amended :
    (∃ st fs1 fs2 fs3,
        focusInit ⟨some (pstr "a\nb"), []⟩ = .ok (st, fs1) ∧
        forbidDomains st fs1 [pstr "x.com"] = .ok fs2 ∧
        focusRestore st fs2 none = .ok fs3 ∧
        fs3.target = some (pstr "a\nb")) ∧
    (∀ (st : FocusState) (fs : FS) (h name c : PyStr) (L : List PyStr),
      fs.backups.filter (fun b => startswith b.1 h) = [(name, c)] →
      c = pyWrite L →
      (∀ l ∈ L, '\n' ∉ l ∧ pyStrip l = l) →
      L.getLast? ≠ some [] →
      focusRestore st fs (some h) =
        .ok { fs with target := some (pyWrite L) } ∧
      (pyReadLines (pyWrite L)).map pyStrip = L) := by
  constructor
  · refine ⟨⟨[pstr "a", pstr "b"], hashOf [pstr "a", pstr "b"]⟩,
      ⟨some (pstr "a\nb"),
       [(hashOf [pstr "a", pstr "b"], pyWrite [pstr "a", pstr "b"])]⟩,
      ⟨some (pyWrite (removeFocusSection [pstr "a", pstr "b"] ++
          FOCUS_BOS :: [pstr "x.com"].map mapLine ++ [FOCUS_EOS])),
       [(hashOf [pstr "a", pstr "b"], pyWrite [pstr "a", pstr "b"])]⟩,
      ⟨some (pyWrite ((pyReadLines (pyWrite [pstr "a", pstr "b"])).map
          pyStrip)),
       [(hashOf [pstr "a", pstr "b"], pyWrite [pstr "a", pstr "b"])]⟩,
      ?_, rfl, ?_, ?_⟩
    · rw [focusInit_some,
        show (pyReadLines (pstr "a\nb")).map pyStrip =
          [pstr "a", pstr "b"] from by decide,
        backupStep_fresh]
    · exact focusRestore_single _ _ _ rfl
    · show some (pyWrite ((pyReadLines (pyWrite [pstr "a", pstr "b"])).map
        pyStrip)) = some (pstr "a\nb")
      decide
  · intro st fs h name c L hfil hc hprops hlast
    have hmap : (pyReadLines (pyWrite L)).map pyStrip = L := by
      rw [pyReadLines_pyWrite L (fun l hl => (hprops l hl).1) hlast]
      exact map_pyStrip_fixed L (fun l hl => (hprops l hl).2)
    refine ⟨?_, hmap⟩
    simp only [focusRestore, Option.getD_some]
    rw [hfil]
    show Except.ok { fs with
        target := some (pyWrite ((pyReadLines c).map pyStrip)) } =
      Except.ok { fs with target := some (pyWrite L) }
    rw [hc, hmap]

theorem claim_restore_roundtrip_amended_witness :
    focusRestore ⟨[], []⟩ ⟨none, [(pstr "k", pstr "a\nb")]⟩
        (some (pstr "k")) =
      .ok ⟨some (pstr "a\nb"), [(pstr "k", pstr "a\nb")]⟩ := by
  have hth := (claim_restore_roundtrip_amended).2 ⟨[], []⟩
    ⟨none, [(pstr "k", pstr "a\nb")]⟩ (pstr "k") (pstr "k") (pstr "a\nb")
    [pstr "a", pstr "b"] (by decide) (by decide) (by decide) (by decide)
  exact hth.1.trans (by decide)

/-- C10: the backup hash is computed over the separator-free
concatenation of the lines, so the distinct contents `["ab"]` and
`["a","b"]` share a hash; with a backup of `["ab"]` already present,
constructing `Focus` over a host file loading as `["a","b"]` is
short-circuited (the backup directory is unchanged), and restoring by
the recorded hash yields `["ab"]`'s line rather than `["a","b"]`. -/
theorem claim_hash_not_injective :
    [pstr "ab"] ≠ [pstr "a", pstr "b"] ∧
    hashOf [pstr "ab"] = hashOf [pstr "a", pstr "b"] ∧
    (∃ st1 fs1 st2 fs2 fs3,
      focusInit ⟨some (pstr "ab"), []⟩ = .ok (st1, fs1) ∧
      focusInit ⟨some (pstr "a\nb"), fs1.backups⟩ = .ok (st2, fs2) ∧
      fs2.backups = fs1.backups ∧
      st2.hosts_contents = [pstr "a", pstr "b"] ∧
      focusRestore st2 fs2 none = .ok fs3 ∧
      fs3.target = some (pstr "ab") ∧
      (pyReadLines (pstr "ab")).map pyStrip = [pstr "ab"]) := by
  have hj : hashOf [pstr "ab"] = hashOf [pstr "a", pstr "b"] := by
    unfold hashOf
    rw [show ([pstr "ab"] : List PyStr).flatten =
      ([pstr "a", pstr "b"] : List PyStr).flatten from by decide]
  refine ⟨by decide, hj, ⟨[pstr "ab"], hashOf [pstr "ab"]⟩,
    ⟨some (pstr "ab"), [(hashOf [pstr "ab"], pyWrite [pstr "ab"])]⟩,
    ⟨[pstr "a", pstr "b"], hashOf [pstr "a", pstr "b"]⟩,
    ⟨some (pstr "a\nb"), [(hashOf [pstr "ab"], pyWrite [pstr "ab"])]⟩,
    ⟨some (pyWrite ((pyReadLines (pyWrite [pstr "ab"])).map pyStrip)),
     [(hashOf [pstr "ab"], pyWrite [pstr "ab"])]⟩,
    ?_, ?_, rfl, rfl, ?_, ?_, by decide⟩
  · rw [focusInit_some,
      show (pyReadLines (pstr "ab")).map pyStrip = [pstr "ab"] from
        by decide,
      backupStep_fresh]
  · rw [focusInit_some,
      show (pyReadLines (pstr "a\nb")).map pyStrip =
        [pstr "a", pstr "b"] from by decide,
      backupStep_mem _ _ (by rw [← hj]; simp [hasName])]
  · refine focusRestore_single _ _ _ ?_
    show [(hashOf [pstr "ab"], pyWrite [pstr "ab"])] =
      [(hashOf [pstr "a", pstr "b"], pyWrite [pstr "ab"])]
    rw [hj]
  · show some (pyWrite ((pyReadLines (pyWrite [pstr "ab"])).map pyStrip)) =
      some (pstr "ab")
    decide

end FocusVerify
